import Mathlib

/-!
Verification of the pricelist auto-updater (main.py).

The development shallowly embeds the script into Lean:
  - machine floats become exact rationals (the program only parses decimal
    literals and compares them, never does float arithmetic, so the rational
    model is faithful for every comparison the program performs);
  - the spreadsheet becomes a list of rows of cells, where a cell is either
    a string or a number, matching what gspread writes;
  - Python dictionaries keyed by seller name become insertion-ordered
    association lists with last-write-wins insertion;
  - fallible effects (page navigation, DOM extraction, the per-product
    pipeline) become Except-valued inputs, so that the except-handlers of
    the source correspond to the error branches here;
  - the regular expressions of parse_price_number are translated
    operationally: the substitution scans left to right trying alternatives
    in order, and the search takes the first maximal digits(.digits)? run.
    Digits are modelled as the ASCII digits 0-9 (the dominant case of the
    Python pattern class); case folding is modelled as ASCII lowercasing.
-/

/-- A spreadsheet cell: gspread receives either a string or a number. -/
inductive Cell where
  | str : String → Cell
  | num : ℚ → Cell
deriving DecidableEq

/-- Fixed store column headers, in adapter registry order (main.py STORE_COLUMNS). -/
def STORE_COLUMNS : List String :=
  ["Jumia", "2B", "BTECH", "Rizkalla", "Carrefour", "Vodafone Shop",
   "Etisalat", "Raneen", "Raya Shop", "Shaheen Center", "Noon"]

/-- Summary column headers (main.py SUMMARY_COLUMNS). -/
def SUMMARY_COLUMNS : List String := ["Cheapest Store", "Cheapest Price"]

/-- Full header row (main.py ALL_COLUMNS). -/
def ALL_COLUMNS : List String := ["Product"] ++ STORE_COLUMNS ++ SUMMARY_COLUMNS

/-- The 20 TV products (main.py default_tv_products). -/
def default_tv_products : List String :=
  ["Samsung 43 inch Crystal UHD 4K TV",
   "Samsung 50 inch Crystal UHD 4K TV",
   "Samsung 55 inch Crystal UHD 4K TV",
   "Samsung 65 inch Crystal UHD 4K TV",
   "Samsung 75 inch Crystal UHD 4K TV",
   "Samsung 43 inch Smart TV",
   "Samsung 55 inch Smart TV",
   "Samsung 65 inch QLED 4K TV",
   "Samsung 55 inch QLED 4K TV",
   "Samsung 50 inch QLED 4K TV",
   "LG 43 inch 4K Smart TV",
   "LG 50 inch 4K Smart TV",
   "LG 55 inch 4K Smart TV",
   "LG 65 inch 4K Smart TV",
   "LG 75 inch 4K Smart TV",
   "LG 55 inch OLED Smart TV",
   "LG 65 inch OLED Smart TV",
   "LG 43 inch Smart TV",
   "LG 55 inch NanoCell 4K TV",
   "LG 65 inch NanoCell 4K TV"]

/-- The 40 phone products (main.py default_phone_products). -/
def default_phone_products : List String :=
  ["Samsung Galaxy A15 6GB 128GB",
   "Samsung Galaxy A25 8GB 128GB",
   "Samsung Galaxy A35 8GB 256GB",
   "Samsung Galaxy A55 8GB 256GB",
   "Samsung Galaxy S23 FE 8GB 256GB",
   "Samsung Galaxy A05s 6GB 128GB",
   "Samsung Galaxy A14 6GB 128GB",
   "Samsung Galaxy M14 6GB 128GB",
   "Apple iPhone 13 128GB",
   "Apple iPhone 14 128GB",
   "Apple iPhone 14 Plus 128GB",
   "Apple iPhone 15 128GB",
   "Apple iPhone 15 Plus 128GB",
   "Apple iPhone SE 64GB",
   "Xiaomi Redmi Note 13 8GB 256GB",
   "Xiaomi Redmi Note 13 6GB 128GB",
   "Xiaomi Redmi Note 13 Pro 8GB 256GB",
   "POCO X6 8GB 256GB",
   "POCO X6 Pro 12GB 256GB",
   "Xiaomi Redmi 13C 4GB 128GB",
   "OPPO Reno 11 8GB 256GB",
   "OPPO Reno 11F 8GB 256GB",
   "OPPO A78 8GB 256GB",
   "OPPO A79 8GB 128GB",
   "Realme 12 Pro 8GB 256GB",
   "Realme 12+ 8GB 256GB",
   "Realme C67 6GB 128GB",
   "Samsung Galaxy A24 8GB 128GB",
   "Samsung Galaxy A34 8GB 128GB",
   "Samsung Galaxy A54 8GB 256GB",
   "Xiaomi Redmi Note 12 8GB 128GB",
   "Xiaomi Redmi Note 12S 8GB 256GB",
   "Xiaomi Redmi Note 11 6GB 128GB",
   "POCO M6 Pro 8GB 256GB",
   "POCO C65 6GB 128GB",
   "OPPO A58 8GB 128GB",
   "Realme C53 6GB 128GB",
   "Realme Narzo 70 8GB 128GB",
   "Samsung Galaxy A15 4GB 128GB",
   "Xiaomi Redmi Note 13 Pro+ 12GB 512GB"]

/-- The 20 air-conditioner products (main.py default_ac_products). -/
def default_ac_products : List String :=
  ["Carrier Split Air Conditioner 1.5 HP Cool",
   "Carrier Split Air Conditioner 2.25 HP Cool",
   "Carrier Split Air Conditioner 3 HP Cool",
   "Carrier Optimax Inverter 1.5 HP Cool",
   "Sharp Split Air Conditioner 1.5 HP Cool",
   "Sharp Split Air Conditioner 2.25 HP Cool",
   "Sharp Split Air Conditioner 3 HP Cool",
   "Unionaire Split Air Conditioner 1.5 HP Cool",
   "Unionaire Split Air Conditioner 2.25 HP Cool",
   "LG Dual Inverter 1.5 HP Cool",
   "LG Dual Inverter 2.25 HP Cool",
   "Tornado Split Air Conditioner 1.5 HP Cool",
   "Tornado Split Air Conditioner 2.25 HP Cool",
   "Fresh Split Air Conditioner 1.5 HP Cool",
   "Fresh Split Air Conditioner 2.25 HP Cool",
   "Midea Split Air Conditioner 1.5 HP Cool",
   "Midea Split Air Conditioner 2.25 HP Cool",
   "Carrier Optimum Inverter 1.5 HP Cool",
   "Sharp Plasmacluster 1.5 HP Cool",
   "Unionaire Artify 1.5 HP Cool"]

/-- Full catalog: TVs, then phones, then air conditioners (main.py default_products). -/
def default_products : List String :=
  default_tv_products ++ default_phone_products ++ default_ac_products

/-- Non-standard space characters replaced before parsing (main.py SPACE_VARIANTS):
no-break space, right-to-left mark, left-to-right mark, narrow no-break space. -/
def SPACE_VARIANTS : List Char := [' ', '‏', '‎', ' ']

/-- One pass of str.replace for each space variant: every variant becomes a plain space. -/
def spaceFix (c : Char) : Char := if c ∈ SPACE_VARIANTS then ' ' else c

/-- The literal alternatives of the currency-stripping substitution in
parse_price_number, in the order the pattern lists them. -/
def CURRENCY_TOKENS : List (List Char) :=
  [['E', 'G', 'P'],
   ['ج', '.', 'م'],
   ['ج', 'ن', 'ي', 'ه'],
   ['ر', 'ي', 'ا', 'ل'],
   ['د', 'ر', 'ه', 'م'],
   ['S', 'A', 'R'],
   ['A', 'E', 'D'],
   ['U', 'S', 'D'],
   ['E', 'G', 'P', '.']]

/-- Case-insensitive literal match of one token at the head of the text;
returns the remaining text on success. -/
def matchToken : List Char → List Char → Option (List Char)
  | [], rest => some rest
  | _ :: _, [] => none
  | a :: tok, c :: cs => if a.toLower = c.toLower then matchToken tok cs else none

/-- Fuel-indexed worker for the currency substitution: at each position try the
alternatives in order; on a match drop the matched text and continue after it,
otherwise keep the character.  Fuel at least the length of the text makes the
fuel irrelevant, since every match consumes at least one character. -/
def removeCurrencyAux : Nat → List Char → List Char
  | _, [] => []
  | 0, cs => cs
  | fuel + 1, c :: cs =>
    match CURRENCY_TOKENS.findSome? (fun tok => matchToken tok (c :: cs)) with
    | some rest => removeCurrencyAux fuel rest
    | none => c :: removeCurrencyAux fuel cs

/-- The currency-token substitution of parse_price_number. -/
def removeCurrency (cs : List Char) : List Char := removeCurrencyAux cs.length cs

/-- First maximal digits(.digits)? run of the text, as matched by the numeric
pattern of parse_price_number, if any. -/
def findNumber : List Char → Option (List Char)
  | [] => none
  | c :: cs =>
    if c.isDigit then
      let ds := (c :: cs).takeWhile Char.isDigit
      match (c :: cs).dropWhile Char.isDigit with
      | '.' :: r2 =>
        match r2.takeWhile Char.isDigit with
        | [] => some ds
        | fs => some (ds ++ '.' :: fs)
      | _ => some ds
    else
      findNumber cs

/-- Value of a digit string, most significant first. -/
def digitsToNat (ds : List Char) : Nat :=
  ds.foldl (fun n c => 10 * n + (c.toNat - 48)) 0

/-- Value of a digits(.digits)? literal, the exact value Python float() denotes. -/
def pyFloat (cs : List Char) : ℚ :=
  let ip := cs.takeWhile (fun c => c ≠ '.')
  match cs.dropWhile (fun c => c ≠ '.') with
  | [] => (digitsToNat ip : ℚ)
  | _ :: fs => (digitsToNat ip : ℚ) + (digitsToNat fs : ℚ) / (10 : ℚ) ^ fs.length

/-- The cleaning pipeline of parse_price_number: space variants to spaces,
thousands-separator commas removed, currency tokens removed. -/
def cleanedChars (s : String) : List Char :=
  removeCurrency ((s.data.map spaceFix).filter (fun c => c ≠ ','))

/-- main.py parse_price_number.  A missing argument (Python None) and the empty
string are both falsy, so both return none; otherwise the text is cleaned, the
first numeric run is extracted and its value returned.  The function is total:
the except-handler of the source never fires because Python float() accepts
every string the numeric pattern can produce. -/
def parse_price_number (text : Option String) : Option ℚ :=
  match text with
  | none => none
  | some s =>
    if s = "" then none
    else
      match findNumber (cleanedChars s) with
      | none => none
      | some numChars => some (pyFloat numChars)

/-- A store adapter: seller name and search-URL template (main.py BaseAdapter).
The DOM-extraction strategy is site-specific behaviour of the browser and is
passed to search_price as data. -/
structure BaseAdapter where
  seller : String
  search_url : String
deriving DecidableEq

/-- main.py BaseAdapter.build_query_url: prefix plus query with spaces as plus signs. -/
def build_query_url (a : BaseAdapter) (q : String) : String :=
  a.search_url ++ (q.replace " " "+")

/-- main.py BaseAdapter.search_price.  The navigation plus extraction step either
raises (error case, caught and turned into none by the handler) or yields the
candidate texts; each text is normalized, the null and non-positive results are
discarded, and the minimum of what remains is returned. -/
def search_price (candidates : Except String (List String)) : Option ℚ :=
  match candidates with
  | Except.error _ => none
  | Except.ok texts =>
    let prices0 := texts.map (fun t => parse_price_number (some t))
    let prices := (prices0.filterMap id).filter (fun p => 0 < p)
    match prices with
    | [] => none
    | p :: ps => some (ps.foldl min p)

/-- The 11 concrete adapters, registry order (main.py ADAPTERS). -/
def ADAPTERS : List BaseAdapter :=
  [⟨"Jumia", "https://www.jumia.com.eg/catalog/?q="⟩,
   ⟨"2B", "https://2b.com.eg/en/search?query="⟩,
   ⟨"BTECH", "https://btech.com/en/search?q="⟩,
   ⟨"Rizkalla", "https://rizkalla.com/search?q="⟩,
   ⟨"Carrefour", "https://www.carrefouregypt.com/mafegy/en/search?q="⟩,
   ⟨"Vodafone Shop", "https://eshop.vodafone.com.eg/shop/search?q="⟩,
   ⟨"Etisalat", "https://www.etisalat.eg/etisalat/portal/Search?text="⟩,
   ⟨"Raneen", "https://raneen.com/en/catalogsearch/result/?q="⟩,
   ⟨"Raya Shop", "https://www.rayashop.com/search?q="⟩,
   ⟨"Shaheen Center", "https://shaheen.center/en/search?q="⟩,
   ⟨"Noon", "https://www.noon.com/egypt-en/search?q="⟩]

/-- A Python dict from seller name to optional price, as an insertion-ordered
association list. -/
abbrev PriceDict := List (String × Option ℚ)

/-- Python dict assignment: overwrite in place if the key exists, else append. -/
def dictInsert (d : PriceDict) (k : String) (v : Option ℚ) : PriceDict :=
  if d.any (fun kv => kv.1 = k) then
    d.map (fun kv => if kv.1 = k then (k, v) else kv)
  else
    d ++ [(k, v)]

/-- Python dict.get on an Optional-valued dict: a missing key and a stored None
are both None, exactly how write_prices_block reads prices_map. -/
def dictGet (d : PriceDict) (k : String) : Option ℚ :=
  match d.find? (fun kv => kv.1 = k) with
  | some kv => kv.2
  | none => none

/-- main.py fetch_prices_for_product: run every adapter in registry order against
the page and record each result under the adapter seller name.  The per-adapter
outcome is the oracle argument, since search_price never raises. -/
def fetch_prices_for_product (result : BaseAdapter → Option ℚ) : PriceDict :=
  ADAPTERS.foldl (fun d ad => dictInsert d ad.seller (result ad)) []

/-- Python min(list, key) for pairs keyed by the second component: a strictly
smaller key replaces the current best, so the first minimum wins. -/
def pyMinBySnd : (String × ℚ) → List (String × ℚ) → (String × ℚ)
  | best, [] => best
  | best, kv :: rest => pyMinBySnd (if kv.2 < best.2 then kv else best) rest

/-- The per-store cells of write_prices_block: price, or empty string when missing. -/
def storeValues (d : PriceDict) : List Cell :=
  STORE_COLUMNS.map (fun store =>
    match dictGet d store with
    | none => Cell.str ""
    | some v => Cell.num v)

/-- The numeric_prices list of write_prices_block: (store, price) pairs for every
store column whose lookup is not None, in store-column order. -/
def numericPrices (d : PriceDict) : List (String × ℚ) :=
  STORE_COLUMNS.filterMap (fun s => (dictGet d s).map (fun p => (s, p)))

/-- The cheapest (store, price) cells of write_prices_block: blanks when no store
has a price, otherwise the Python min over numeric_prices keyed by price. -/
def cheapestPair (d : PriceDict) : Cell × Cell :=
  match numericPrices d with
  | [] => (Cell.str "", Cell.str "")
  | kv :: rest =>
    let best := pyMinBySnd kv rest
    (Cell.str best.1, Cell.num best.2)

/-- The full value list written by write_prices_block: one cell per store column,
then the cheapest store, then the cheapest price. -/
def rowPayloadFor (d : PriceDict) : List Cell :=
  storeValues d ++ [(cheapestPair d).1, (cheapestPair d).2]

/-- The worksheet: a list of rows of cells.  Absent cells read as empty. -/
structure Worksheet where
  rows : List (List Cell)
deriving DecidableEq

/-- Displayed string of a cell, as the sheet API returns cell values. -/
def cellToStr : Cell → String
  | Cell.str s => s
  | Cell.num q => toString q

/-- The sheet API omits trailing empty cells when reading a row or a column. -/
def dropTrailingEmpty (l : List String) : List String :=
  (l.reverse.dropWhile (fun s => s = "")).reverse

/-- gspread row_values: the values of the given 1-based row, trailing blanks omitted. -/
def row_values (ws : Worksheet) (n : Nat) : List String :=
  dropTrailingEmpty ((ws.rows.getD (n - 1) []).map cellToStr)

/-- gspread col_values: the values of the given 1-based column, trailing blanks omitted. -/
def col_values (ws : Worksheet) (c : Nat) : List String :=
  dropTrailingEmpty (ws.rows.map (fun r => cellToStr (r.getD (c - 1) (Cell.str ""))))

/-- gspread clear: remove all data. -/
def wsClear (_ws : Worksheet) : Worksheet := ⟨[]⟩

/-- gspread append_row. -/
def append_row (ws : Worksheet) (r : List Cell) : Worksheet := ⟨ws.rows ++ [r]⟩

/-- gspread append_rows. -/
def append_rows (ws : Worksheet) (rs : List (List Cell)) : Worksheet := ⟨ws.rows ++ rs⟩

/-- main.py open_or_create_pricelist, restricted to the worksheet state it
repairs: when the first row differs from ALL_COLUMNS, clear everything and
append the header once; otherwise leave the sheet alone. -/
def open_or_create_pricelist (ws : Worksheet) : Worksheet :=
  if row_values ws 1 = ALL_COLUMNS then ws
  else append_row (wsClear ws) (ALL_COLUMNS.map Cell.str)

/-- main.py ensure_products: reuse a non-empty product column (header excluded),
otherwise seed the catalog, one row per product with blank cells after column 1.
Returns the product list together with the resulting sheet. -/
def ensure_products (ws : Worksheet) : List String × Worksheet :=
  let existing := (col_values ws 1).drop 1
  if existing ≠ [] then (existing, ws)
  else
    let products := default_products
    let rows := products.map
      (fun p => Cell.str p :: List.replicate (ALL_COLUMNS.length - 1) (Cell.str ""))
    (products, append_rows ws rows)

/-- Pad a row with empty cells up to the given length. -/
def padRow (r : List Cell) (n : Nat) : List Cell :=
  r ++ List.replicate (n - r.length) (Cell.str "")

/-- Replace the 0-based i-th row, growing the sheet with empty rows as the
sheet API does when an update addresses a row beyond the current size. -/
def setRow (rows : List (List Cell)) (i : Nat) (r : List Cell) : List (List Cell) :=
  (rows ++ List.replicate (i + 1 - rows.length) []).set i r

/-- main.py write_prices_block: one contiguous range update of the given 1-based
row from column 2 to column 14, writing the store prices and the cheapest
store/price; column 1 and columns beyond 14 keep their previous content. -/
def write_prices_block (ws : Worksheet) (row_idx : Nat) (prices_map : PriceDict) : Worksheet :=
  let old := ws.rows.getD (row_idx - 1) []
  let padded := padRow old 14
  let newRow := padded.take 1 ++ rowPayloadFor prices_map ++ padded.drop 14
  ⟨setRow ws.rows (row_idx - 1) newRow⟩

/-- Read one cell, 1-based row and column; absent cells are empty strings. -/
def getCell (ws : Worksheet) (r c : Nat) : Cell :=
  (ws.rows.getD (r - 1) []).getD (c - 1) (Cell.str "")

/-- The per-product loop of main.py update_all, starting at the given row index:
a failing per-product pipeline (error case, caught by the handler in the loop)
writes nothing and the loop moves on; a successful fetch writes the row. -/
def update_rows (fetch : String → Except String PriceDict) :
    Worksheet → Nat → List String → Worksheet
  | ws, _, [] => ws
  | ws, idx, product :: rest =>
    match fetch product with
    | Except.error _ => update_rows fetch ws (idx + 1) rest
    | Except.ok price_map => update_rows fetch (write_prices_block ws idx price_map) (idx + 1) rest

/-- main.py update_all after authentication: repair the header, ensure the
products, then run the per-product loop with row indices starting at 2. -/
def update_all (fetch : String → Except String PriceDict) (ws : Worksheet) : Worksheet :=
  let ws1 := open_or_create_pricelist ws
  let pw := ensure_products ws1
  update_rows fetch pw.2 2 pw.1

/-! Character-level helper lemmas for the normalizer. -/

lemma char_digit_bounds {c : Char} (h : c.isDigit = true) : 48 ≤ c.toNat ∧ c.toNat ≤ 57 := by
  simp [Char.isDigit] at h
  exact ⟨UInt32.le_toNat_of_le (by decide) h.1, UInt32.toNat_le_of_le (by decide) h.2⟩

lemma char_toLower_of_low {c : Char} (h : c.toNat < 65) : c.toLower = c := by
  simp [Char.toLower]
  intro h1 h2
  omega

lemma char_ne_toLower_low {c : Char} (hc : c.toNat < 65) {a : Char} (ha : 65 ≤ a.toNat) :
    ¬ a = c.toLower := by
  intro h
  rw [char_toLower_of_low hc] at h
  subst h
  omega

lemma matchToken_head_ne {a : Char} {tok : List Char} {c : Char} {l : List Char}
    (h : ¬ a.toLower = c.toLower) : matchToken (a :: tok) (c :: l) = none := by
  simp [matchToken, h]

lemma findSome_token_none {c : Char} (hc : c.toNat < 65) (l : List Char) :
    CURRENCY_TOKENS.findSome? (fun tok => matchToken tok (c :: l)) = none := by
  have h1 : matchToken ['E', 'G', 'P'] (c :: l) = none :=
    matchToken_head_ne (char_ne_toLower_low hc (by decide))
  have h2 : matchToken ['ج', '.', 'م'] (c :: l) = none :=
    matchToken_head_ne (char_ne_toLower_low hc (by decide))
  have h3 : matchToken ['ج', 'ن', 'ي', 'ه'] (c :: l) = none :=
    matchToken_head_ne (char_ne_toLower_low hc (by decide))
  have h4 : matchToken ['ر', 'ي', 'ا', 'ل'] (c :: l) = none :=
    matchToken_head_ne (char_ne_toLower_low hc (by decide))
  have h5 : matchToken ['د', 'ر', 'ه', 'م'] (c :: l) = none :=
    matchToken_head_ne (char_ne_toLower_low hc (by decide))
  have h6 : matchToken ['S', 'A', 'R'] (c :: l) = none :=
    matchToken_head_ne (char_ne_toLower_low hc (by decide))
  have h7 : matchToken ['A', 'E', 'D'] (c :: l) = none :=
    matchToken_head_ne (char_ne_toLower_low hc (by decide))
  have h8 : matchToken ['U', 'S', 'D'] (c :: l) = none :=
    matchToken_head_ne (char_ne_toLower_low hc (by decide))
  have h9 : matchToken ['E', 'G', 'P', '.'] (c :: l) = none :=
    matchToken_head_ne (char_ne_toLower_low hc (by decide))
  simp [CURRENCY_TOKENS, List.findSome?_cons, h1, h2, h3, h4, h5, h6, h7, h8, h9]

lemma removeCurrencyAux_lowPrefix (l : List Char) (hl : ∀ c ∈ l, c.toNat < 65)
    (k : Nat) (m : List Char) :
    removeCurrencyAux (l.length + k) (l ++ m) = l ++ removeCurrencyAux k m := by
  induction l with
  | nil => simp
  | cons c l ih =>
    have hc : c.toNat < 65 := hl c (by simp)
    have hrest : ∀ x ∈ l, x.toNat < 65 := fun x hx => hl x (by simp [hx])
    have heq : (c :: l).length + k = (l.length + k) + 1 := by simp; omega
    rw [heq, List.cons_append]
    rw [show removeCurrencyAux ((l.length + k) + 1) (c :: (l ++ m))
          = c :: removeCurrencyAux (l.length + k) (l ++ m) from by
        simp [removeCurrencyAux, findSome_token_none hc]]
    rw [ih hrest]
    simp

lemma takeWhile_all {α : Type} (p : α → Bool) (l : List α) (h : ∀ c ∈ l, p c = true) :
    l.takeWhile p = l ∧ l.dropWhile p = [] := by
  induction l with
  | nil => simp
  | cons a l ih =>
    have ha : p a = true := h a (by simp)
    have ih2 := ih (fun c hc => h c (by simp [hc]))
    simp [List.takeWhile, List.dropWhile, ha, ih2.1, ih2.2]

lemma span_digits (ds : List Char) (h : ∀ c ∈ ds, c.isDigit = true)
    {x : Char} (hx : x.isDigit = false) (r : List Char) :
    (ds ++ x :: r).takeWhile Char.isDigit = ds ∧
    (ds ++ x :: r).dropWhile Char.isDigit = x :: r := by
  induction ds with
  | nil => simp [List.takeWhile, List.dropWhile, hx]
  | cons d ds ih =>
    have hd : d.isDigit = true := h d (by simp)
    have ih2 := ih (fun c hc => h c (by simp [hc]))
    simp [List.takeWhile, List.dropWhile, hd, ih2.1, ih2.2]

lemma findNumber_digits (ds : List Char) (hne : ds ≠ []) (h : ∀ c ∈ ds, c.isDigit = true) :
    findNumber (ds ++ [' ']) = some ds := by
  cases ds with
  | nil => exact absurd rfl hne
  | cons d ds =>
    have hd : d.isDigit = true := h d (by simp)
    have hspan := span_digits (d :: ds) h (by decide : (' ').isDigit = false) []
    rw [List.cons_append, findNumber]
    rw [← List.cons_append]
    simp only [hspan.1, hspan.2, hd]
    simp

lemma pyFloat_digits (ds : List Char) (h : ∀ c ∈ ds, c.isDigit = true) :
    pyFloat ds = (digitsToNat ds : ℚ) := by
  have hnd : ∀ c ∈ ds, (decide (c ≠ '.')) = true := by
    intro c hc
    have hdig := h c hc
    simp only [decide_eq_true_eq]
    intro hcd
    rw [hcd] at hdig
    exact absurd hdig (by decide)
  have hTW := takeWhile_all (fun c => decide (c ≠ '.')) ds hnd
  rw [pyFloat]
  simp only [hTW.1, hTW.2]

lemma filter_comma_digits (cs : List Char) (hall : ∀ c ∈ cs, c.isDigit = true ∨ c = ',') :
    cs.filter (fun c => c ≠ ',') = cs.filter Char.isDigit := by
  induction cs with
  | nil => simp
  | cons c cs ih =>
    have ih2 := ih (fun x hx => hall x (by simp [hx]))
    rcases hall c (by simp) with h | h
    · have hc : c ≠ ',' := by
        intro hcc
        rw [hcc] at h
        exact absurd h (by decide)
      simp [List.filter, hc, h]
      simpa using ih2
    · subst h
      simp [List.filter, show Char.isDigit ',' = false from by decide]
      simpa using ih2

lemma spaceFix_keep {c : Char} (h : c.isDigit = true ∨ c = ',') : spaceFix c = c := by
  unfold spaceFix
  rw [if_neg]
  intro hmem
  simp [SPACE_VARIANTS] at hmem
  rcases h with h | h
  · rcases hmem with hm | hm | hm | hm <;> rw [hm] at h <;> exact absurd h (by decide)
  · subst h
    rcases hmem with hm | hm | hm | hm <;> exact absurd hm (by decide)

lemma findNumber_some_of_digit {c : Char} (hc : c.isDigit = true) (cs : List Char) :
    findNumber (c :: cs) ≠ none := by
  rw [findNumber]
  simp only [hc, if_true]
  split
  · split <;> simp
  · simp

lemma findNumber_none_iff (l : List Char) :
    findNumber l = none ↔ ∀ c ∈ l, c.isDigit = false := by
  induction l with
  | nil => simp [findNumber]
  | cons c cs ih =>
    by_cases hc : c.isDigit = true
    · constructor
      · intro h
        exact absurd h (findNumber_some_of_digit hc cs)
      · intro hall
        have := hall c (by simp)
        rw [hc] at this
        exact absurd this (by decide)
    · have hc2 : c.isDigit = false := by
        cases hcb : c.isDigit
        · rfl
        · exact absurd hcb hc
      rw [findNumber]
      simp [hc2, ih]

lemma pyFloat_nonneg (cs : List Char) : 0 ≤ pyFloat cs := by
  rw [pyFloat]
  split
  · positivity
  · positivity

lemma cleanedChars_comma_digits_egp (cs : List Char)
    (hall : ∀ c ∈ cs, c.isDigit = true ∨ c = ',') :
    cleanedChars (String.mk (cs ++ [' ', 'E', 'G', 'P']))
      = cs.filter Char.isDigit ++ [' '] := by
  have hdata : (String.mk (cs ++ [' ', 'E', 'G', 'P'])).data = cs ++ [' ', 'E', 'G', 'P'] := rfl
  have hmap : (cs ++ [' ', 'E', 'G', 'P']).map spaceFix = cs ++ [' ', 'E', 'G', 'P'] := by
    rw [List.map_append]
    have h1 : cs.map spaceFix = cs :=
      (List.map_congr_left (fun a ha => spaceFix_keep (hall a ha))).trans (List.map_id cs)
    rw [h1]
    rfl
  have hfil : (cs ++ [' ', 'E', 'G', 'P']).filter (fun c => c ≠ ',')
      = cs.filter Char.isDigit ++ [' ', 'E', 'G', 'P'] := by
    rw [List.filter_append, filter_comma_digits cs hall]
    rfl
  have hlow : ∀ c ∈ cs.filter Char.isDigit, c.toNat < 65 := by
    intro c hc
    have hdig : c.isDigit = true := (List.mem_filter.mp hc).2
    have := char_digit_bounds hdig
    omega
  rw [cleanedChars, hdata, hmap, hfil, removeCurrency]
  have hlen : (cs.filter Char.isDigit ++ [' ', 'E', 'G', 'P']).length
      = (cs.filter Char.isDigit).length + 4 := by
    simp
  rw [hlen]
  have := removeCurrencyAux_lowPrefix (cs.filter Char.isDigit) hlow 4 [' ', 'E', 'G', 'P']
  rw [this]
  rfl

/-- C2: for raw text made of digits and thousands-separator commas followed by a
currency token (the shape of prices like 12,500 EGP), parse_price_number returns
exactly the number denoted by the digits with the separators removed. -/
theorem parse_price_thousands (cs : List Char)
    (hall : ∀ c ∈ cs, c.isDigit = true ∨ c = ',')
    (hdig : ∃ c ∈ cs, c.isDigit = true) :
    parse_price_number (some (String.mk (cs ++ [' ', 'E', 'G', 'P'])))
      = some ((digitsToNat (cs.filter Char.isDigit) : ℚ)) := by
  obtain ⟨c0, hc0mem, hc0dig⟩ := hdig
  have hne : cs.filter Char.isDigit ≠ [] := by
    intro h
    have : c0 ∈ cs.filter Char.isDigit := List.mem_filter.mpr ⟨hc0mem, hc0dig⟩
    rw [h] at this
    exact absurd this (by simp)
  have hdigs : ∀ c ∈ cs.filter Char.isDigit, c.isDigit = true :=
    fun c hc => (List.mem_filter.mp hc).2
  have hs : ¬ (String.mk (cs ++ [' ', 'E', 'G', 'P']) = "") := by
    intro h
    have hdat := congrArg String.data h
    simp at hdat
  simp only [parse_price_number]
  rw [if_neg hs, cleanedChars_comma_digits_egp cs hall,
    findNumber_digits (cs.filter Char.isDigit) hne hdigs]
  show some (pyFloat (cs.filter Char.isDigit)) = _
  rw [pyFloat_digits (cs.filter Char.isDigit) hdigs]

/-- C2 witness: the concrete example of the claim. -/
theorem parse_price_thousands_witness :
    parse_price_number (some "12,500 EGP") = some 12500 := by
  have h := parse_price_thousands ['1', '2', ',', '5', '0', '0'] (by decide) (by decide)
  have h2 : parse_price_number (some "12,500 EGP")
      = some ((digitsToNat (List.filter Char.isDigit ['1', '2', ',', '5', '0', '0']) : ℚ)) := h
  rw [h2,
    show digitsToNat (List.filter Char.isDigit ['1', '2', ',', '5', '0', '0']) = 12500 from by
      decide]
  norm_num

/-- C3: parse_price_number is total over all inputs, the null and empty inputs
included; it returns none exactly when the cleaned text contains no digit (so
the numeric pattern cannot match), and any returned value is non-negative. -/
theorem parse_price_number_total (t : Option String) :
    (parse_price_number t = none ↔
      (t = none ∨ t = some "" ∨ ∃ s, t = some s ∧ ∀ c ∈ cleanedChars s, c.isDigit = false)) ∧
    (∀ q, parse_price_number t = some q → 0 ≤ q) := by
  cases t with
  | none => simp [parse_price_number]
  | some s =>
    by_cases hs : s = ""
    · subst hs
      constructor
      · simp [parse_price_number]
      · intro q hq
        simp [parse_price_number] at hq
    · constructor
      · simp only [parse_price_number, if_neg hs]
        cases hfn : findNumber (cleanedChars s) with
        | none =>
          simp only [hfn]
          constructor
          · intro _
            exact Or.inr (Or.inr ⟨s, rfl, (findNumber_none_iff _).mp hfn⟩)
          · intro _
            trivial
        | some v =>
          simp only [hfn]
          constructor
          · intro h
            exact absurd h (by simp)
          · rintro (h | h | ⟨s2, hs2, hall⟩)
            · exact absurd h (by simp)
            · have : s = "" := by
                injection h
              exact absurd this hs
            · have hss : s2 = s := by
                injection hs2 with h2
                exact h2.symm
              subst hss
              rw [(findNumber_none_iff _).mpr hall] at hfn
              exact absurd hfn (by simp)
      · intro q hq
        simp only [parse_price_number, if_neg hs] at hq
        cases hfn : findNumber (cleanedChars s) with
        | none =>
          rw [hfn] at hq
          exact absurd hq (by simp)
        | some v =>
          rw [hfn] at hq
          have hqv : pyFloat v = q := by
            injection hq
          rw [← hqv]
          exact pyFloat_nonneg v

/-- C3 witness: a currency-only text yields none, through the theorem. -/
theorem parse_price_number_total_witness :
    parse_price_number (some "EGP") = none :=
  (parse_price_number_total (some "EGP")).1.mpr
    (Or.inr (Or.inr ⟨"EGP", rfl, by decide⟩))

lemma foldl_min_mem (p : ℚ) (ps : List ℚ) : ps.foldl min p ∈ p :: ps := by
  induction ps generalizing p with
  | nil => simp
  | cons a ps ih =>
    have h := ih (min p a)
    rw [List.foldl_cons]
    rcases List.mem_cons.mp h with h1 | h1
    · rcases min_choice p a with hm | hm
      · rw [h1, hm]
        simp
      · rw [h1, hm]
        simp
    · simp [h1]

lemma foldl_min_le (p : ℚ) (ps : List ℚ) : ∀ x ∈ p :: ps, ps.foldl min p ≤ x := by
  induction ps generalizing p with
  | nil =>
    intro x hx
    simp at hx
    rw [hx]
    simp
  | cons a ps ih =>
    intro x hx
    rw [List.foldl_cons]
    rcases List.mem_cons.mp hx with h1 | h1
    · rw [h1]
      exact le_trans (ih (min p a) (min p a) (by simp)) (min_le_left p a)
    · rcases List.mem_cons.mp h1 with h2 | h2
      · rw [h2]
        exact le_trans (ih (min p a) (min p a) (by simp)) (min_le_right p a)
      · exact ih (min p a) x (by simp [h2])

lemma search_price_ok_eq (ts : List String) :
    search_price (Except.ok ts) =
      match ((ts.map (fun t => parse_price_number (some t))).filterMap id).filter
          (fun p => decide (0 < p)) with
      | [] => none
      | p :: ps => some (ps.foldl min p) := rfl

lemma search_price_prices_mem (ts : List String) (q : ℚ) :
    q ∈ ((ts.map (fun t => parse_price_number (some t))).filterMap id).filter
        (fun p => decide (0 < p)) ↔
      (∃ t ∈ ts, parse_price_number (some t) = some q) ∧ 0 < q := by
  rw [List.mem_filter]
  simp only [List.mem_filterMap, List.mem_map, id, decide_eq_true_eq]
  constructor
  · rintro ⟨⟨a, ⟨t, ht, hft⟩, ha⟩, hpos⟩
    subst ha
    exact ⟨⟨t, ht, hft⟩, hpos⟩
  · rintro ⟨⟨t, ht, hft⟩, hpos⟩
    exact ⟨⟨some q, ⟨t, ht, hft⟩, rfl⟩, hpos⟩

/-- C4: search_price turns a navigation or extraction failure into none; on
success it normalizes every candidate text, discards null and non-positive
values, and returns none when nothing survives and otherwise the minimum of
the surviving prices. -/
theorem search_price_min (r : Except String (List String)) :
    (search_price r = none ↔
      ((∃ e, r = Except.error e) ∨
       ∃ ts, r = Except.ok ts ∧
         ∀ t ∈ ts, ∀ p, parse_price_number (some t) = some p → ¬ 0 < p)) ∧
    (∀ q, search_price r = some q →
      ∃ ts, r = Except.ok ts ∧ 0 < q ∧
        (∃ t ∈ ts, parse_price_number (some t) = some q) ∧
        (∀ t ∈ ts, ∀ p, parse_price_number (some t) = some p → 0 < p → q ≤ p)) := by
  cases r with
  | error e =>
    constructor
    · constructor
      · intro _
        exact Or.inl ⟨e, rfl⟩
      · intro _
        rfl
    · intro q hq
      exact absurd hq (by simp [search_price])
  | ok ts =>
    rw [search_price_ok_eq ts]
    cases hP : ((ts.map (fun t => parse_price_number (some t))).filterMap id).filter
        (fun p => decide (0 < p)) with
    | nil =>
      constructor
      · constructor
        · intro _
          refine Or.inr ⟨ts, rfl, ?_⟩
          intro t ht p hp hpos
          have hmem : p ∈ ((ts.map (fun t => parse_price_number (some t))).filterMap id).filter
              (fun p => decide (0 < p)) :=
            (search_price_prices_mem ts p).mpr ⟨⟨t, ht, hp⟩, hpos⟩
          rw [hP] at hmem
          exact absurd hmem (by simp)
        · intro _
          rfl
      · intro q hq
        exact absurd hq (by simp)
    | cons p ps =>
      have hpmem : p ∈ ((ts.map (fun t => parse_price_number (some t))).filterMap id).filter
          (fun p => decide (0 < p)) := by
        rw [hP]
        simp
      obtain ⟨⟨t0, ht0, hft0⟩, hpos0⟩ := (search_price_prices_mem ts p).mp hpmem
      constructor
      · constructor
        · intro h
          exact absurd h (by simp)
        · rintro (⟨e, he⟩ | ⟨ts2, hts2, hall⟩)
          · exact absurd he (by simp)
          · have : ts2 = ts := by
              injection hts2 with h2
              exact h2.symm
            subst this
            exact absurd hpos0 (hall t0 ht0 p hft0)
      · intro q hq
        have hq2 : ps.foldl min p = q := by
          injection hq
        have hqmem : q ∈ ((ts.map (fun t => parse_price_number (some t))).filterMap id).filter
            (fun p => decide (0 < p)) := by
          rw [hP]
          rw [← hq2]
          exact foldl_min_mem p ps
        obtain ⟨⟨t1, ht1, hft1⟩, hpos1⟩ := (search_price_prices_mem ts q).mp hqmem
        refine ⟨ts, rfl, hpos1, ⟨t1, ht1, hft1⟩, ?_⟩
        intro t ht pr hpr hprpos
        have hprmem : pr ∈ ((ts.map (fun t => parse_price_number (some t))).filterMap id).filter
            (fun p => decide (0 < p)) :=
          (search_price_prices_mem ts pr).mpr ⟨⟨t, ht, hpr⟩, hprpos⟩
        rw [hP] at hprmem
        rw [← hq2]
        exact foldl_min_le p ps pr hprmem

/-- C4 witness: a raised navigation exception becomes none, through the theorem. -/
theorem search_price_min_witness :
    search_price (Except.error "timeout") = none :=
  (search_price_min (Except.error "timeout")).1.mpr (Or.inl ⟨"timeout", rfl⟩)

lemma getD_append_replicate_nil (rows : List (List Cell)) (k j : Nat) :
    (rows ++ List.replicate k ([] : List Cell)).getD j [] = rows.getD j [] := by
  rw [List.getD_eq_getElem?_getD, List.getD_eq_getElem?_getD]
  by_cases h : j < rows.length
  · rw [List.getElem?_append_left h]
  · have h2 : rows.length ≤ j := le_of_not_lt h
    rw [List.getElem?_append_right h2, List.getElem?_replicate, List.getElem?_eq_none h2]
    by_cases h3 : j - rows.length < k <;> simp [h3]

lemma setRow_getD_ne (rows : List (List Cell)) (i : Nat) (r : List Cell) (j : Nat)
    (h : i ≠ j) :
    (setRow rows i r).getD j [] = rows.getD j [] := by
  rw [setRow, List.getD_eq_getElem?_getD, List.getElem?_set_ne h,
    ← List.getD_eq_getElem?_getD]
  exact getD_append_replicate_nil rows _ j

lemma setRow_getD_eq (rows : List (List Cell)) (i : Nat) (r : List Cell) :
    (setRow rows i r).getD i [] = r := by
  rw [setRow, List.getD_eq_getElem?_getD]
  have hlen : i < (rows ++ List.replicate (i + 1 - rows.length) ([] : List Cell)).length := by
    rw [List.length_append, List.length_replicate]
    omega
  rw [List.getElem?_set_self hlen]
  simp

lemma padRow_length (r : List Cell) (n : Nat) : (padRow r n).length = max n r.length := by
  rw [padRow, List.length_append, List.length_replicate]
  omega

lemma padRow_getD (r : List Cell) (n j : Nat) :
    (padRow r n).getD j (Cell.str "") = r.getD j (Cell.str "") := by
  rw [padRow, List.getD_eq_getElem?_getD, List.getD_eq_getElem?_getD]
  by_cases h : j < r.length
  · rw [List.getElem?_append_left h]
  · have h2 : r.length ≤ j := le_of_not_lt h
    rw [List.getElem?_append_right h2, List.getElem?_replicate, List.getElem?_eq_none h2]
    by_cases h3 : j - r.length < n - r.length <;> simp [h3]

lemma rowPayloadFor_length (d : PriceDict) : (rowPayloadFor d).length = 13 := by
  rw [rowPayloadFor, List.length_append, storeValues, List.length_map]
  rfl

lemma storeValues_length (d : PriceDict) : (storeValues d).length = 11 := by
  rw [storeValues, List.length_map]
  rfl

lemma write_prices_block_rows (ws : Worksheet) (row_idx : Nat) (d : PriceDict) :
    (write_prices_block ws row_idx d).rows
      = setRow ws.rows (row_idx - 1)
          ((padRow (ws.rows.getD (row_idx - 1) []) 14).take 1 ++ rowPayloadFor d
            ++ (padRow (ws.rows.getD (row_idx - 1) []) 14).drop 14) := rfl

lemma write_getCell_other (ws : Worksheet) (row_idx : Nat) (d : PriceDict)
    (r c : Nat) (hrow : 1 ≤ row_idx) (hr : 1 ≤ r) (hne : r ≠ row_idx) :
    getCell (write_prices_block ws row_idx d) r c = getCell ws r c := by
  rw [getCell, getCell, write_prices_block_rows]
  rw [setRow_getD_ne]
  omega

lemma write_getCell_col1 (ws : Worksheet) (row_idx : Nat) (d : PriceDict) :
    getCell (write_prices_block ws row_idx d) row_idx 1 = getCell ws row_idx 1 := by
  rw [getCell, getCell, write_prices_block_rows, setRow_getD_eq]
  have hlen : ((padRow (ws.rows.getD (row_idx - 1) []) 14).take 1).length = 1 := by
    rw [List.length_take, padRow_length]
    omega
  rw [List.getD_eq_getElem?_getD, List.append_assoc,
    List.getElem?_append_left (by rw [hlen]; omega : (0 : Nat) < _),
    List.getElem?_take_of_lt (by omega : (0 : Nat) < 1),
    ← List.getD_eq_getElem?_getD, padRow_getD]

lemma write_getCell_payload (ws : Worksheet) (row_idx : Nat) (d : PriceDict)
    (k : Nat) (hk : k < 13) :
    getCell (write_prices_block ws row_idx d) row_idx (k + 2)
      = (rowPayloadFor d).getD k (Cell.str "") := by
  rw [getCell, write_prices_block_rows, setRow_getD_eq]
  have hlen : ((padRow (ws.rows.getD (row_idx - 1) []) 14).take 1).length = 1 := by
    rw [List.length_take, padRow_length]
    omega
  have hidx : k + 2 - 1 = 1 + k := by omega
  rw [hidx, List.getD_eq_getElem?_getD, List.append_assoc,
    List.getElem?_append_right (by rw [hlen]; omega : _ ≤ 1 + k)]
  rw [hlen]
  have hidx2 : 1 + k - 1 = k := by omega
  rw [hidx2,
    List.getElem?_append_left (by rw [rowPayloadFor_length d]; omega : k < _),
    ← List.getD_eq_getElem?_getD]

lemma write_getCell_high (ws : Worksheet) (row_idx : Nat) (d : PriceDict)
    (c : Nat) (hc : 15 ≤ c) :
    getCell (write_prices_block ws row_idx d) row_idx c = getCell ws row_idx c := by
  rw [getCell, getCell, write_prices_block_rows, setRow_getD_eq]
  have hlen : ((padRow (ws.rows.getD (row_idx - 1) []) 14).take 1).length = 1 := by
    rw [List.length_take, padRow_length]
    omega
  rw [List.getD_eq_getElem?_getD, List.append_assoc,
    List.getElem?_append_right (by rw [hlen]; omega : _ ≤ c - 1)]
  rw [hlen]
  rw [List.getElem?_append_right (by rw [rowPayloadFor_length d]; omega : _ ≤ c - 1 - 1)]
  rw [rowPayloadFor_length d]
  rw [List.getElem?_drop]
  have hidx : 14 + (c - 1 - 1 - 13) = c - 1 := by omega
  rw [hidx, ← List.getD_eq_getElem?_getD, padRow_getD]

/-- C8: write_prices_block writes, as one contiguous update of the given row
starting at column 2, exactly the store prices in registry column order with
the empty string as the missing-value sentinel, followed by the cheapest store
and cheapest price; the product column, columns beyond the block, and all
other rows are untouched. -/
theorem write_prices_block_layout (ws : Worksheet) (row_idx : Nat) (d : PriceDict)
    (hrow : 1 ≤ row_idx) :
    (rowPayloadFor d
      = STORE_COLUMNS.map (fun store =>
          match dictGet d store with
          | none => Cell.str ""
          | some v => Cell.num v) ++ [(cheapestPair d).1, (cheapestPair d).2]) ∧
    (∀ k, k < 13 →
      getCell (write_prices_block ws row_idx d) row_idx (k + 2)
        = (rowPayloadFor d).getD k (Cell.str "")) ∧
    getCell (write_prices_block ws row_idx d) row_idx 1 = getCell ws row_idx 1 ∧
    (∀ c, 15 ≤ c →
      getCell (write_prices_block ws row_idx d) row_idx c = getCell ws row_idx c) ∧
    (∀ r c, 1 ≤ r → r ≠ row_idx →
      getCell (write_prices_block ws row_idx d) r c = getCell ws r c) := by
  refine ⟨rfl, ?_, write_getCell_col1 ws row_idx d, ?_, ?_⟩
  · intro k hk
    exact write_getCell_payload ws row_idx d k hk
  · intro c hc
    exact write_getCell_high ws row_idx d c hc
  · intro r c hr hne
    exact write_getCell_other ws row_idx d r c hrow hr hne

/-- C8 witness: the product cell of the updated row is untouched, at a concrete
sheet, row and price map, through the theorem. -/
theorem write_prices_block_layout_witness :
    getCell (write_prices_block ⟨[[Cell.str "prod"]]⟩ 1 [("Noon", some 2)]) 1 1
      = getCell (⟨[[Cell.str "prod"]]⟩ : Worksheet) 1 1 :=
  (write_prices_block_layout ⟨[[Cell.str "prod"]]⟩ 1 [("Noon", some 2)]
    (by decide)).2.2.1

lemma pyMinBySnd_le_head (kv : String × ℚ) (l : List (String × ℚ)) :
    (pyMinBySnd kv l).2 ≤ kv.2 := by
  induction l generalizing kv with
  | nil => simp [pyMinBySnd]
  | cons a l ih =>
    rw [pyMinBySnd]
    by_cases h : a.2 < kv.2
    · rw [if_pos h]
      exact le_trans (ih a) (le_of_lt h)
    · rw [if_neg h]
      exact ih kv

lemma pyMinBySnd_le (kv : String × ℚ) (l : List (String × ℚ)) :
    ∀ x ∈ kv :: l, (pyMinBySnd kv l).2 ≤ x.2 := by
  induction l generalizing kv with
  | nil =>
    intro x hx
    simp at hx
    rw [hx, pyMinBySnd]
  | cons a l ih =>
    intro x hx
    by_cases h : a.2 < kv.2
    · rw [pyMinBySnd, if_pos h]
      rcases List.mem_cons.mp hx with h1 | h1
      · rw [h1]
        exact le_trans (pyMinBySnd_le_head a l) (le_of_lt h)
      · exact ih a x h1
    · rw [pyMinBySnd, if_neg h]
      rcases List.mem_cons.mp hx with h1 | h1
      · rw [h1]
        exact pyMinBySnd_le_head kv l
      · rcases List.mem_cons.mp h1 with h2 | h2
        · rw [h2]
          exact le_trans (pyMinBySnd_le_head kv l) (le_of_not_lt h)
        · exact ih kv x (by simp [h2])

lemma pyMinBySnd_mem (kv : String × ℚ) (l : List (String × ℚ)) :
    pyMinBySnd kv l ∈ kv :: l := by
  induction l generalizing kv with
  | nil => simp [pyMinBySnd]
  | cons a l ih =>
    rw [pyMinBySnd]
    by_cases h : a.2 < kv.2
    · rw [if_pos h]
      rcases List.mem_cons.mp (ih a) with h1 | h1
      · rw [h1]
        simp
      · simp [h1]
    · rw [if_neg h]
      rcases List.mem_cons.mp (ih kv) with h1 | h1
      · rw [h1]
        simp
      · simp [h1]

lemma pyMinBySnd_find? (kv : String × ℚ) (l : List (String × ℚ)) :
    (kv :: l).find? (fun x => x.2 == (pyMinBySnd kv l).2) = some (pyMinBySnd kv l) := by
  induction l generalizing kv with
  | nil =>
    rw [pyMinBySnd]
    simp [List.find?]
  | cons a l ih =>
    by_cases h : a.2 < kv.2
    · rw [pyMinBySnd, if_pos h]
      have hrb : (pyMinBySnd a l).2 ≤ a.2 := pyMinBySnd_le_head a l
      have hne : ((fun x => x.2 == (pyMinBySnd a l).2) kv) = false := by
        simp only [beq_eq_false_iff_ne, ne_eq]
        intro heq
        rw [heq] at h
        exact absurd (lt_of_le_of_lt hrb h) (lt_irrefl _)
      rw [List.find?_cons_of_neg _ (by simp [hne])]
      exact ih a
    · rw [pyMinBySnd, if_neg h]
      have hkv_le_a : kv.2 ≤ a.2 := le_of_not_lt h
      have hrb : (pyMinBySnd kv l).2 ≤ kv.2 := pyMinBySnd_le_head kv l
      by_cases h2 : (kv.2 == (pyMinBySnd kv l).2) = true
      · have hhead : List.find? (fun x => x.2 == (pyMinBySnd kv l).2) (kv :: l) = some kv :=
          List.find?_cons_of_pos _ h2
        have hkveq : some kv = some (pyMinBySnd kv l) := by
          rw [← hhead]
          exact ih kv
        have hgoal : List.find? (fun x => x.2 == (pyMinBySnd kv l).2) (kv :: a :: l)
            = some kv := List.find?_cons_of_pos _ h2
        exact hgoal.trans hkveq
      · have hne_a : ¬ ((fun x => x.2 == (pyMinBySnd kv l).2) a) = true := by
          simp only [beq_iff_eq]
          intro heq
          have hkveq2 : kv.2 = (pyMinBySnd kv l).2 := le_antisymm (heq ▸ hkv_le_a) hrb
          exact absurd (beq_iff_eq.mpr hkveq2) (by simpa using h2)
        have hne_kv : ¬ ((fun x => x.2 == (pyMinBySnd kv l).2) kv) = true := h2
        have hstep1 : List.find? (fun x => x.2 == (pyMinBySnd kv l).2) (kv :: a :: l)
            = List.find? (fun x => x.2 == (pyMinBySnd kv l).2) (a :: l) :=
          List.find?_cons_of_neg _ hne_kv
        have hstep2 : List.find? (fun x => x.2 == (pyMinBySnd kv l).2) (a :: l)
            = List.find? (fun x => x.2 == (pyMinBySnd kv l).2) l :=
          List.find?_cons_of_neg _ hne_a
        have hstep3 : List.find? (fun x => x.2 == (pyMinBySnd kv l).2) (kv :: l)
            = List.find? (fun x => x.2 == (pyMinBySnd kv l).2) l :=
          List.find?_cons_of_neg _ hne_kv
        rw [hstep1, hstep2, ← hstep3]
        exact ih kv

lemma numericPrices_mem (d : PriceDict) (s : String) (p : ℚ) :
    (s, p) ∈ numericPrices d ↔ s ∈ STORE_COLUMNS ∧ dictGet d s = some p := by
  rw [numericPrices, List.mem_filterMap]
  constructor
  · rintro ⟨a, ha, hfa⟩
    cases hda : dictGet d a with
    | none =>
      rw [hda] at hfa
      exact absurd hfa (by simp)
    | some q =>
      rw [hda] at hfa
      simp only [Option.map_some', Option.some.injEq] at hfa
      have ha2 : a = s := congrArg Prod.fst hfa
      have hq2 : q = p := congrArg Prod.snd hfa
      refine ⟨ha2 ▸ ha, ?_⟩
      rw [← ha2, hda, hq2]
  · rintro ⟨hs, hd⟩
    refine ⟨s, hs, ?_⟩
    rw [hd]
    rfl

lemma numericPrices_nil_iff (d : PriceDict) :
    numericPrices d = [] ↔ ∀ s ∈ STORE_COLUMNS, dictGet d s = none := by
  rw [numericPrices, List.filterMap_eq_nil_iff]
  constructor
  · intro h s hs
    have h2 := h s hs
    cases hds : dictGet d s with
    | none => rfl
    | some q =>
      rw [hds] at h2
      exact absurd h2 (by simp)
  · intro h s hs
    rw [h s hs]
    rfl

lemma find?_store_transfer (d : PriceDict) (q : ℚ) (stores : List String)
    (s0 : String) (p0 : ℚ)
    (h : (stores.filterMap (fun s => (dictGet d s).map (fun p => (s, p)))).find?
        (fun x => x.2 == q) = some (s0, p0)) :
    stores.find? (fun s => dictGet d s == some q) = some s0 ∧ p0 = q := by
  induction stores with
  | nil => simp at h
  | cons s ss ih =>
    rw [List.filterMap_cons] at h
    cases hds : dictGet d s with
    | none =>
      rw [hds] at h
      simp only [Option.map_none'] at h
      have hres := ih h
      refine ⟨?_, hres.2⟩
      have hne : ¬ ((fun s => dictGet d s == some q) s) = true := by
        simp only [hds]
        simp
      have hstep : List.find? (fun s => dictGet d s == some q) (s :: ss)
          = List.find? (fun s => dictGet d s == some q) ss :=
        List.find?_cons_of_neg _ hne
      rw [hstep]
      exact hres.1
    | some p =>
      rw [hds] at h
      simp only [Option.map_some'] at h
      by_cases hq : (p == q) = true
      · have hpos : ((fun x : String × ℚ => x.2 == q) (s, p)) = true := hq
        have hstep : List.find? (fun x : String × ℚ => x.2 == q)
            ((s, p) :: ss.filterMap (fun s => (dictGet d s).map (fun p => (s, p))))
            = some (s, p) := List.find?_cons_of_pos _ hpos
        rw [hstep] at h
        simp only [Option.some.injEq] at h
        have hs0 : s = s0 := congrArg Prod.fst h
        have hp0 : p = p0 := congrArg Prod.snd h
        have hpq : p = q := beq_iff_eq.mp hq
        constructor
        · have hpos2 : ((fun s => dictGet d s == some q) s) = true := by
            simp only [hds, hpq]
            simp
          have hstep2 : List.find? (fun s => dictGet d s == some q) (s :: ss) = some s :=
            List.find?_cons_of_pos _ hpos2
          rw [hstep2, hs0]
        · rw [← hp0, hpq]
      · have hneg : ¬ ((fun x : String × ℚ => x.2 == q) (s, p)) = true := hq
        have hstep : List.find? (fun x : String × ℚ => x.2 == q)
            ((s, p) :: ss.filterMap (fun s => (dictGet d s).map (fun p => (s, p))))
            = List.find? (fun x : String × ℚ => x.2 == q)
                (ss.filterMap (fun s => (dictGet d s).map (fun p => (s, p)))) :=
          List.find?_cons_of_neg _ hneg
        rw [hstep] at h
        have hres := ih h
        refine ⟨?_, hres.2⟩
        have hne2 : ¬ ((fun s => dictGet d s == some q) s) = true := by
          simp only [hds, beq_iff_eq, Option.some.injEq]
          intro hpq2
          exact hq (beq_iff_eq.mpr hpq2)
        have hstep2 : List.find? (fun s => dictGet d s == some q) (s :: ss)
            = List.find? (fun s => dictGet d s == some q) ss :=
          List.find?_cons_of_neg _ hne2
        rw [hstep2]
        exact hres.1

lemma rowPayloadFor_getD_11 (d : PriceDict) :
    (rowPayloadFor d).getD 11 (Cell.str "") = (cheapestPair d).1 := by
  rw [rowPayloadFor, List.getD_eq_getElem?_getD,
    List.getElem?_append_right (by rw [storeValues_length d] : (storeValues d).length ≤ 11),
    storeValues_length d]
  rfl

lemma rowPayloadFor_getD_12 (d : PriceDict) :
    (rowPayloadFor d).getD 12 (Cell.str "") = (cheapestPair d).2 := by
  rw [rowPayloadFor, List.getD_eq_getElem?_getD,
    List.getElem?_append_right (by rw [storeValues_length d]; omega : (storeValues d).length ≤ 12),
    storeValues_length d]
  rfl

/-- C1: the cheapest pair written by write_prices_block is blank exactly when
every store lookup is missing; otherwise the cheapest price is the minimum of
all present prices and the cheapest store is the registry-earliest store
attaining it (find? returns the first match in store-column order).  The last
conjunct places the pair in columns 13 and 14 of the written row. -/
theorem cheapest_pair_min (d : PriceDict) :
    ((∀ s ∈ STORE_COLUMNS, dictGet d s = none) →
      cheapestPair d = (Cell.str "", Cell.str "")) ∧
    ((∃ s ∈ STORE_COLUMNS, dictGet d s ≠ none) →
      ∃ q s0,
        cheapestPair d = (Cell.str s0, Cell.num q) ∧
        dictGet d s0 = some q ∧
        (∀ s ∈ STORE_COLUMNS, ∀ p, dictGet d s = some p → q ≤ p) ∧
        STORE_COLUMNS.find? (fun s => dictGet d s == some q) = some s0) ∧
    (∀ ws r, getCell (write_prices_block ws r d) r 13 = (cheapestPair d).1 ∧
             getCell (write_prices_block ws r d) r 14 = (cheapestPair d).2) := by
  refine ⟨?_, ?_, ?_⟩
  · intro h
    rw [cheapestPair, (numericPrices_nil_iff d).mpr h]
  · rintro ⟨s1, hs1, hne⟩
    cases hN : numericPrices d with
    | nil => exact absurd ((numericPrices_nil_iff d).mp hN s1 hs1) hne
    | cons kv rest =>
      refine ⟨(pyMinBySnd kv rest).2, (pyMinBySnd kv rest).1, ?_, ?_, ?_, ?_⟩
      · rw [cheapestPair, hN]
      · have hmem : pyMinBySnd kv rest ∈ numericPrices d := by
          rw [hN]
          exact pyMinBySnd_mem kv rest
        exact ((numericPrices_mem d (pyMinBySnd kv rest).1 (pyMinBySnd kv rest).2).mp hmem).2
      · intro s hs p hp
        have hmem2 : (s, p) ∈ numericPrices d := (numericPrices_mem d s p).mpr ⟨hs, hp⟩
        rw [hN] at hmem2
        exact pyMinBySnd_le kv rest (s, p) hmem2
      · have hfind : (numericPrices d).find? (fun x => x.2 == (pyMinBySnd kv rest).2)
            = some (pyMinBySnd kv rest) := by
          rw [hN]
          exact pyMinBySnd_find? kv rest
        exact (find?_store_transfer d (pyMinBySnd kv rest).2 STORE_COLUMNS
          (pyMinBySnd kv rest).1 (pyMinBySnd kv rest).2 hfind).1
  · intro ws r
    constructor
    · have h := write_getCell_payload ws r d 11 (by omega)
      rw [show (11 : Nat) + 2 = 13 from rfl] at h
      rw [h]
      exact rowPayloadFor_getD_11 d
    · have h := write_getCell_payload ws r d 12 (by omega)
      rw [show (12 : Nat) + 2 = 14 from rfl] at h
      rw [h]
      exact rowPayloadFor_getD_12 d

/-- C1 witness: the spec example with prices 1000 and 900 selects the second
store at the minimum 900, through the theorem. -/
theorem cheapest_pair_min_witness :
    STORE_COLUMNS.find?
        (fun s => dictGet [("Jumia", some 1000), ("2B", some 900)] s == some 900)
      = some "2B" := by
  obtain ⟨q, s0, hpair, hget, hmin, hfind⟩ :=
    (cheapest_pair_min [("Jumia", some 1000), ("2B", some 900)]).2.1
      ⟨"Jumia", by decide, by decide⟩
  have hcp : cheapestPair [("Jumia", some 1000), ("2B", some 900)]
      = (Cell.str "2B", Cell.num 900) := by decide
  rw [hcp] at hpair
  have hs0 : s0 = "2B" := by
    have h1 := congrArg Prod.fst hpair
    simp at h1
    exact h1.symm
  have hq : q = 900 := by
    have h2 := congrArg Prod.snd hpair
    simp at h2
    exact h2.symm
  rw [hs0, hq] at hfind
  exact hfind

lemma write_getCell_ne0 (ws : Worksheet) (row_idx : Nat) (d : PriceDict) (r c : Nat)
    (h : r - 1 ≠ row_idx - 1) :
    getCell (write_prices_block ws row_idx d) r c = getCell ws r c := by
  rw [getCell, getCell, write_prices_block_rows, setRow_getD_ne]
  exact fun heq => h heq.symm

lemma update_rows_lt (fetch : String → Except String PriceDict) (products : List String) :
    ∀ (ws : Worksheet) (n r c : Nat), 2 ≤ n → r < n →
      getCell (update_rows fetch ws n products) r c = getCell ws r c := by
  induction products with
  | nil =>
    intro ws n r c h2 hr
    rfl
  | cons p ps ih =>
    intro ws n r c h2 hr
    rw [update_rows]
    cases hf : fetch p with
    | error e => exact ih ws (n + 1) r c (by omega) (by omega)
    | ok m =>
      have h1 := ih (write_prices_block ws n m) (n + 1) r c (by omega) (by omega)
      rw [h1]
      exact write_getCell_ne0 ws n m r c (by omega)

lemma update_rows_untouched (fetch : String → Except String PriceDict)
    (products : List String) :
    ∀ (ws : Worksheet) (n r c : Nat), 2 ≤ n →
      (∀ j (hj : j < products.length), n + j = r →
        ∃ e, fetch (products.get ⟨j, hj⟩) = Except.error e) →
      getCell (update_rows fetch ws n products) r c = getCell ws r c := by
  induction products with
  | nil =>
    intro ws n r c h2 _
    rfl
  | cons p ps ih =>
    intro ws n r c h2 hact
    rw [update_rows]
    cases hf : fetch p with
    | error e =>
      apply ih ws (n + 1) r c (by omega)
      intro j hj hsum
      exact hact (j + 1) (by simpa using Nat.succ_lt_succ hj) (by omega)
    | ok m =>
      have hner : n ≠ r := by
        intro hnr
        obtain ⟨e2, he2⟩ := hact 0 (by simp) (by omega)
        have he3 : fetch p = Except.error e2 := he2
        rw [hf] at he3
        exact absurd he3 (by simp)
      have h1 : getCell (update_rows fetch (write_prices_block ws n m) (n + 1) ps) r c
          = getCell (write_prices_block ws n m) r c := by
        apply ih (write_prices_block ws n m) (n + 1) r c (by omega)
        intro j hj hsum
        exact hact (j + 1) (by simpa using Nat.succ_lt_succ hj) (by omega)
      rw [h1]
      exact write_getCell_ne0 ws n m r c (by omega)

lemma update_rows_written (fetch : String → Except String PriceDict)
    (products : List String) :
    ∀ (ws : Worksheet) (n j : Nat) (hj : j < products.length) (m : PriceDict),
      2 ≤ n → fetch (products.get ⟨j, hj⟩) = Except.ok m →
      ∀ k, k < 13 →
        getCell (update_rows fetch ws n products) (n + j) (k + 2)
          = (rowPayloadFor m).getD k (Cell.str "") := by
  induction products with
  | nil =>
    intro ws n j hj
    exact absurd hj (by simp)
  | cons p ps ih =>
    intro ws n j hj m h2 hf k hk
    cases j with
    | zero =>
      rw [update_rows]
      rw [show fetch p = Except.ok m from hf]
      have hlt := update_rows_lt fetch ps (write_prices_block ws n m) (n + 1) n (k + 2)
        (by omega) (by omega)
      rw [show n + 0 = n from rfl, hlt]
      exact write_getCell_payload ws n m k hk
    | succ j2 =>
      rw [update_rows]
      have hj2 : j2 < ps.length := by simpa using Nat.lt_of_succ_lt_succ hj
      have hidx : n + (j2 + 1) = (n + 1) + j2 := by omega
      cases hfp : fetch p with
      | error e =>
        have h := ih ws (n + 1) j2 hj2 m (by omega) hf k hk
        rw [hidx]
        exact h
      | ok m2 =>
        have h := ih (write_prices_block ws n m2) (n + 1) j2 hj2 m (by omega) hf k hk
        rw [hidx]
        exact h

/-- C7: a failing per-product pipeline leaves the row of the failing product
entirely untouched for that cycle while the loop still processes every other
product: each product whose fetch succeeds has its row payload written,
regardless of failures elsewhere in the list.  The loop itself is total, so a
per-product failure never aborts the run. -/
theorem update_rows_isolates (fetch : String → Except String PriceDict) (ws : Worksheet)
    (products : List String) (i : Nat) (hi : i < products.length) (e : String)
    (he : fetch (products.get ⟨i, hi⟩) = Except.error e) :
    (∀ c, getCell (update_rows fetch ws 2 products) (i + 2) c = getCell ws (i + 2) c) ∧
    (∀ j (hj : j < products.length) (m : PriceDict),
      fetch (products.get ⟨j, hj⟩) = Except.ok m →
      ∀ k, k < 13 →
        getCell (update_rows fetch ws 2 products) (j + 2) (k + 2)
          = (rowPayloadFor m).getD k (Cell.str "")) := by
  constructor
  · intro c
    apply update_rows_untouched fetch products ws 2 (i + 2) c (by omega)
    intro j hj hsum
    have hji : j = i := by omega
    subst hji
    exact ⟨e, he⟩
  · intro j hj m hm k hk
    have h := update_rows_written fetch products ws 2 j hj m (by omega) hm k hk
    rw [show (2 : Nat) + j = j + 2 from by omega] at h
    exact h

/-- C7 witness: with a first product whose pipeline raises, its row is
untouched, at a concrete fetch function and sheet, through the theorem. -/
theorem update_rows_isolates_witness :
    getCell (update_rows
        (fun p => if p = "a" then Except.error "boom" else Except.ok [])
        ⟨[]⟩ 2 ["a", "b"]) 2 2
      = getCell (⟨[]⟩ : Worksheet) 2 2 :=
  (update_rows_isolates (fun p => if p = "a" then Except.error "boom" else Except.ok [])
    ⟨[]⟩ ["a", "b"] 0 (by decide) "boom" (by rfl)).1 2

/-- C5: a first header row differing from the expected column list causes a
full clear of the data followed by exactly one header write, so the resulting
sheet is the single correct header row; a matching header leaves the sheet
untouched. -/
theorem ensure_header_repair (ws : Worksheet) :
    (row_values ws 1 ≠ ALL_COLUMNS →
      (open_or_create_pricelist ws).rows = [ALL_COLUMNS.map Cell.str]) ∧
    (row_values ws 1 = ALL_COLUMNS → open_or_create_pricelist ws = ws) := by
  constructor
  · intro h
    rw [open_or_create_pricelist, if_neg h]
    rfl
  · intro h
    rw [open_or_create_pricelist, if_pos h]

/-- C5 witness: an empty sheet gets exactly the header, through the theorem. -/
theorem ensure_header_repair_witness :
    (open_or_create_pricelist ⟨[]⟩).rows = [ALL_COLUMNS.map Cell.str] :=
  (ensure_header_repair ⟨[]⟩).1 (by decide)

/-- C6: product initialization is idempotent: a non-empty product column
(header excluded) is returned unchanged in its existing row order with no rows
appended; only an empty column seeds the catalog, whose category order is TVs,
then phones, then air conditioners. -/
theorem ensure_products_idempotent (ws : Worksheet) :
    (default_products
      = default_tv_products ++ default_phone_products ++ default_ac_products) ∧
    ((col_values ws 1).drop 1 ≠ [] →
      ensure_products ws = ((col_values ws 1).drop 1, ws)) ∧
    ((col_values ws 1).drop 1 = [] →
      (ensure_products ws).1 = default_products ∧
      (ensure_products ws).2.rows = ws.rows ++ default_products.map
        (fun p => Cell.str p :: List.replicate (ALL_COLUMNS.length - 1) (Cell.str ""))) := by
  refine ⟨rfl, ?_, ?_⟩
  · intro h
    rw [ensure_products, if_pos h]
  · intro h
    rw [ensure_products, if_neg (by rw [h]; exact fun hc => hc rfl)]
    exact ⟨rfl, rfl⟩

/-- C6 witness: a populated product column is reused as-is, through the theorem. -/
theorem ensure_products_idempotent_witness :
    ensure_products ⟨[ALL_COLUMNS.map Cell.str, [Cell.str "X"]]⟩
      = (["X"], ⟨[ALL_COLUMNS.map Cell.str, [Cell.str "X"]]⟩) := by
  have h := (ensure_products_idempotent ⟨[ALL_COLUMNS.map Cell.str, [Cell.str "X"]]⟩).2.1
    (by decide)
  rw [h]
  decide

/-- C9: the adapter registry seller list equals the store columns elementwise
in order, and the persisted header is the product column, the 11 sellers in
registry order, then the two summary columns. -/
theorem header_matches_registry :
    ADAPTERS.map BaseAdapter.seller = STORE_COLUMNS ∧
    ALL_COLUMNS
      = "Product" :: (ADAPTERS.map BaseAdapter.seller ++ ["Cheapest Store", "Cheapest Price"]) ∧
    ADAPTERS.length = 11 ∧ STORE_COLUMNS.length = 11 := by
  refine ⟨?_, ?_, ?_, ?_⟩ <;> rfl

lemma dictInsert_fresh (d : PriceDict) (k : String) (v : Option ℚ)
    (h : ∀ kv ∈ d, kv.1 ≠ k) : dictInsert d k v = d ++ [(k, v)] := by
  rw [dictInsert, if_neg]
  intro hany
  rw [List.any_eq_true] at hany
  obtain ⟨kv, hkv, hkvk⟩ := hany
  exact h kv hkv (by simpa using hkvk)

lemma foldl_dictInsert_fresh (res : BaseAdapter → Option ℚ) :
    ∀ (l : List BaseAdapter) (acc : PriceDict),
      (∀ ad ∈ l, ∀ kv ∈ acc, kv.1 ≠ ad.seller) →
      (l.map BaseAdapter.seller).Nodup →
      l.foldl (fun d ad => dictInsert d ad.seller (res ad)) acc
        = acc ++ l.map (fun ad => (ad.seller, res ad)) := by
  intro l
  induction l with
  | nil =>
    intro acc _ _
    simp
  | cons a l ih =>
    intro acc hdisj hnd
    rw [List.foldl_cons, dictInsert_fresh acc a.seller (res a)
      (fun kv hkv => hdisj a (by simp) kv hkv)]
    rw [List.map_cons] at hnd
    have hhead : a.seller ∉ l.map BaseAdapter.seller := (List.nodup_cons.mp hnd).1
    have hnd2 : (l.map BaseAdapter.seller).Nodup := (List.nodup_cons.mp hnd).2
    have hstep := ih (acc ++ [(a.seller, res a)]) ?_ hnd2
    · rw [hstep]
      simp
    · intro ad had kv hkv
      rcases List.mem_append.mp hkv with hkv1 | hkv1
      · exact hdisj ad (by simp [had]) kv hkv1
      · have hkv2 : kv = (a.seller, res a) := by simpa using hkv1
        rw [hkv2]
        intro heq
        have heq2 : a.seller = ad.seller := heq
        apply hhead
        rw [heq2]
        exact List.mem_map_of_mem BaseAdapter.seller had

lemma fetch_prices_unfold (res : BaseAdapter → Option ℚ) :
    fetch_prices_for_product res = ADAPTERS.map (fun ad => (ad.seller, res ad)) := by
  rw [fetch_prices_for_product,
    foldl_dictInsert_fresh res ADAPTERS [] (by simp) (by decide)]
  simp

lemma dictGet_cons_self (kv : String × Option ℚ) (d : PriceDict) (k : String)
    (h : kv.1 = k) : dictGet (kv :: d) k = kv.2 := by
  have hf : List.find? (fun x => x.1 = k) (kv :: d) = some kv :=
    List.find?_cons_of_pos _ (by simp [h])
  rw [dictGet, hf]

lemma dictGet_cons_ne (kv : String × Option ℚ) (d : PriceDict) (k : String)
    (h : ¬ kv.1 = k) : dictGet (kv :: d) k = dictGet d k := by
  have hf : List.find? (fun x => x.1 = k) (kv :: d) = List.find? (fun x => x.1 = k) d :=
    List.find?_cons_of_neg _ (by simp [h])
  rw [dictGet, hf, dictGet]

lemma dictGet_map_fresh (res : BaseAdapter → Option ℚ) :
    ∀ (l : List BaseAdapter), (l.map BaseAdapter.seller).Nodup →
      ∀ ad ∈ l, dictGet (l.map (fun ad => (ad.seller, res ad))) ad.seller = res ad := by
  intro l
  induction l with
  | nil =>
    intro _ ad had
    exact absurd had (by simp)
  | cons a l ih =>
    intro hnd ad had
    rw [List.map_cons] at hnd
    have hhead : a.seller ∉ l.map BaseAdapter.seller := (List.nodup_cons.mp hnd).1
    have hnd2 : (l.map BaseAdapter.seller).Nodup := (List.nodup_cons.mp hnd).2
    rw [List.map_cons]
    rcases List.mem_cons.mp had with h1 | h1
    · subst h1
      exact dictGet_cons_self (ad.seller, res ad) _ ad.seller rfl
    · have hne : ¬ ((a.seller, res a) : String × Option ℚ).1 = ad.seller := by
        intro heq
        have heq2 : a.seller = ad.seller := heq
        apply hhead
        rw [heq2]
        exact List.mem_map_of_mem BaseAdapter.seller h1
      rw [dictGet_cons_ne (a.seller, res a) _ ad.seller hne]
      exact ih hnd2 ad h1

/-- C10: fetch_prices_for_product records one entry per registered adapter,
visited in registry order: its key list is exactly the 11 seller names in
order, and each seller is bound to that adapter's search result, whether or
not a price was found. -/
theorem fetch_prices_complete (res : BaseAdapter → Option ℚ) :
    (fetch_prices_for_product res).map Prod.fst = ADAPTERS.map BaseAdapter.seller ∧
    ∀ ad ∈ ADAPTERS, dictGet (fetch_prices_for_product res) ad.seller = res ad := by
  constructor
  · rw [fetch_prices_unfold, List.map_map]
    rfl
  · intro ad had
    rw [fetch_prices_unfold]
    exact dictGet_map_fresh res ADAPTERS (by decide) ad had

/-- C10 witness: the last registry seller is present even when every adapter
finds nothing, through the theorem. -/
theorem fetch_prices_complete_witness :
    dictGet (fetch_prices_for_product (fun _ => none)) "Noon" = none :=
  (fetch_prices_complete (fun _ => none)).2
    ⟨"Noon", "https://www.noon.com/egypt-en/search?q="⟩ (by decide)
